import Mathlib

/-!
Shallow embedding of `matrix-sdk-sqlite`s SQLite event cache store
(`crates/matrix-sdk-sqlite/src/event_cache_store.rs`), covering the media
repository operations, the optional encryption layer, and the schema
bootstrap / migration flow.

Bytes are modelled as `List Nat`.  Database rows of the `media` table are
modelled as a list of records; SQL statements become pure state
transformers on that list.  The open / migration path is modelled both as
a result value and as a trace of connection-level actions (single
statements and explicit transactions), which lets us reason about what is
and is not inside a transaction.
-/

namespace EventCache

/-- Byte strings. -/
abbrev Bytes := List Nat

/-- Modelled from the spec: the store cipher of `matrix-sdk-store-encryption`
(not part of the sources here) is opaque key material; we represent it by an
abstract key identifier.  Hashing and authenticated encryption below are keyed
by this identifier. -/
structure StoreCipher where
  keyId : Nat
deriving DecidableEq

/-- Modelled from the spec: an authenticated-encryption ciphertext produced by
the store cipher.  It records the key material it was produced under, the
nonce (encryption need not be deterministic) and the protected payload. -/
structure EncryptedValue where
  keyId : Nat
  nonce : Nat
  payload : Bytes
deriving DecidableEq

/-- Errors surfaced by per-call repository operations. -/
inductive StoreError
  | deserialization
  | decryption
deriving DecidableEq

/-- Modelled from the spec: `StoreCipher::encrypt_value_data`.  Authenticated
encryption; the nonce is supplied by the environment. -/
def encrypt_value_data (c : StoreCipher) (nonce : Nat) (v : Bytes) : EncryptedValue :=
  ⟨c.keyId, nonce, v⟩

/-- Modelled from the spec: `StoreCipher::decrypt_value_data`.  Authenticated
decryption fails when the ciphertext was produced under different key
material. -/
def decrypt_value_data (c : StoreCipher) (e : EncryptedValue) : Except StoreError Bytes :=
  if e.keyId = c.keyId then .ok e.payload else .error .decryption

/-- Modelled from the spec: `rmp_serde::to_vec_named`, serializing an
encrypted value into a byte string. -/
def rmp_to_vec (e : EncryptedValue) : Bytes :=
  e.keyId :: e.nonce :: e.payload

/-- Modelled from the spec: `rmp_serde::from_slice`, the partial inverse of
`rmp_to_vec`; arbitrary byte strings may fail to deserialize. -/
def rmp_from_slice (b : Bytes) : Except StoreError EncryptedValue :=
  match b with
  | k :: n :: p => .ok ⟨k, n, p⟩
  | _ => .error .deserialization

/-- Modelled from the spec: `utils::Key` (not part of the sources here) is
either the plain key bytes or a keyed, table-namespaced hash.  The hash is
modelled as a collision-free record of (key material, table namespace, input),
matching the deterministic domain-separated hashing contract. -/
inductive Key
  | Plain (bytes : Bytes)
  | Hashed (keyId : Nat) (table : String) (input : Bytes)
deriving DecidableEq

/-- Modelled from the spec: `StoreCipher::hash_key`, deterministic and
domain-separated by the table name. -/
def hash_key (c : StoreCipher) (table_name : String) (key : Bytes) : Key :=
  .Hashed c.keyId table_name key

/-- The table name used for all media keys (`keys::MEDIA`). -/
def media_table_name : String := "media"

/-- The store handle: an optional cipher (configured iff a passphrase was
given at open time).  The pool and path are connection plumbing and are
modelled by passing the database state explicitly. -/
structure SqliteEventCacheStore where
  store_cipher : Option StoreCipher
deriving DecidableEq

/-- `SqliteEventCacheStore::encode_value`: with a cipher, encrypt and
msgpack-serialize; otherwise the identity. -/
def SqliteEventCacheStore.encode_value (s : SqliteEventCacheStore) (nonce : Nat)
    (value : Bytes) : Bytes :=
  match s.store_cipher with
  | some key => rmp_to_vec (encrypt_value_data key nonce value)
  | none => value

/-- `SqliteEventCacheStore::decode_value`: with a cipher, msgpack-deserialize
then decrypt; otherwise the identity. -/
def SqliteEventCacheStore.decode_value (s : SqliteEventCacheStore)
    (value : Bytes) : Except StoreError Bytes :=
  match s.store_cipher with
  | some key => do
      let encrypted ← rmp_from_slice value
      decrypt_value_data key encrypted
  | none => .ok value

/-- `SqliteEventCacheStore::encode_key`: with a cipher, the keyed hash;
otherwise the plain bytes. -/
def SqliteEventCacheStore.encode_key (s : SqliteEventCacheStore)
    (table_name : String) (key : Bytes) : Key :=
  match s.store_cipher with
  | some store_cipher => hash_key store_cipher table_name key
  | none => .Plain key

/-- One row of the `media` table. -/
structure MediaRow where
  uri : Key
  format : Key
  data : Bytes
  last_access : Nat
deriving DecidableEq

/-- The `media` table, as the list of its rows. -/
structure MediaTable where
  rows : List MediaRow
deriving DecidableEq

/-- The SQL predicate `uri = ? AND format = ?` on a row. -/
def rowMatches (uri format : Key) (r : MediaRow) : Bool :=
  decide (r.uri = uri) && decide (r.format = format)

/-- `set_media`: `INSERT OR REPLACE INTO media (uri, format, data,
last_access) VALUES (?, ?, ?, now)`.  Any row conflicting on the key pair is
replaced (the pair is the unique key of the table, per the schema of
`001_init.sql`, which is modelled from the spec); `last_access` is set to the
current time. -/
def set_media (db : MediaTable) (now : Nat) (uri format : Key) (data : Bytes) :
    MediaTable :=
  ⟨(db.rows.filter fun r => !(rowMatches uri format r)) ++ [⟨uri, format, data, now⟩]⟩

/-- The effect of the `UPDATE media SET last_access = now WHERE uri = ? AND
format = ?` statement on a single row. -/
def touchRow (now : Nat) (uri format : Key) (r : MediaRow) : MediaRow :=
  if rowMatches uri format r then { r with last_access := now } else r

/-- `get_media`: one transaction that selects `data` for the key pair
(returning `none` and leaving the table unchanged when no row matches) and,
when a row matches, updates its `last_access` to the current time. -/
def get_media (db : MediaTable) (now : Nat) (uri format : Key) :
    Option Bytes × MediaTable :=
  match db.rows.find? (rowMatches uri format) with
  | none => (none, db)
  | some r => (some r.data, ⟨db.rows.map (touchRow now uri format)⟩)

/-- `remove_media`: `DELETE FROM media WHERE uri = ? AND format = ?`. -/
def remove_media (db : MediaTable) (uri format : Key) : MediaTable :=
  ⟨db.rows.filter fun r => !(rowMatches uri format r)⟩

/-- `remove_uri_medias`: `DELETE FROM media WHERE uri = ?`. -/
def remove_uri_medias (db : MediaTable) (uri : Key) : MediaTable :=
  ⟨db.rows.filter fun r => !(decide (r.uri = uri))⟩

/-- A media request, reduced to the two unique-key byte strings the store
derives from it (`request.source.unique_key()` and
`request.format.unique_key()`). -/
structure MediaRequest where
  source_key : Bytes
  format_key : Bytes
deriving DecidableEq

/-- `EventCacheStore::add_media_content`: encode both key parts and the
value, then `set_media`. -/
def add_media_content (s : SqliteEventCacheStore) (db : MediaTable)
    (now nonce : Nat) (request : MediaRequest) (content : Bytes) : MediaTable :=
  let uri := s.encode_key media_table_name request.source_key
  let format := s.encode_key media_table_name request.format_key
  let data := s.encode_value nonce content
  set_media db now uri format data

/-- `EventCacheStore::get_media_content`: encode both key parts, run the
`get_media` transaction, then decode the selected value (the decode happens
after the transaction has committed). -/
def get_media_content (s : SqliteEventCacheStore) (db : MediaTable)
    (now : Nat) (request : MediaRequest) :
    Except StoreError (Option Bytes) × MediaTable :=
  let uri := s.encode_key media_table_name request.source_key
  let format := s.encode_key media_table_name request.format_key
  let res := get_media db now uri format
  (match res.1 with
   | none => .ok none
   | some v => (s.decode_value v).map some,
   res.2)

/-- `EventCacheStore::remove_media_content`. -/
def remove_media_content (s : SqliteEventCacheStore) (db : MediaTable)
    (request : MediaRequest) : MediaTable :=
  let uri := s.encode_key media_table_name request.source_key
  let format := s.encode_key media_table_name request.format_key
  remove_media db uri format

/-- `EventCacheStore::remove_media_content_for_uri`. -/
def remove_media_content_for_uri (s : SqliteEventCacheStore) (db : MediaTable)
    (uri : Bytes) : MediaTable :=
  remove_uri_medias db (s.encode_key media_table_name uri)

/-! ### The open / bootstrap / migration path

`open_with_pool` is modelled twice: as a result value (does the open succeed,
and with which cipher), and as a trace of connection-level actions.  A trace
action is either one top-level SQL statement or one explicit transaction
grouping several statements; this distinction is what the bootstrap claims
are about. -/

/-- `DATABASE_VERSION`, the current expected schema version. -/
def DATABASE_VERSION : Nat := 1

/-- Connection-level SQL operations relevant to the open path. -/
inductive SqlOp
  | pragmaWal
  | schemaInit
  | readKv (key : String)
  | cipherSetup
  | setKv (key : String) (value : Bytes)
deriving DecidableEq

/-- One action on the connection: a single top-level statement, or an
explicit transaction wrapping a batch of statements. -/
inductive ConnAction
  | stmt (op : SqlOp)
  | transaction (ops : List SqlOp)
deriving DecidableEq

/-- The trace of `init`: turn on WAL mode (outside any transaction), run the
initial schema batch (`001_init.sql`) inside one transaction, then write
version 1 with a separate `set_kv` statement. -/
def initTrace : List ConnAction :=
  [.stmt .pragmaWal, .transaction [.schemaInit], .stmt (.setKv "version" [1])]

/-- The trace of `run_migrations from to`: when `from < to` (with `to`
defaulting to `DATABASE_VERSION`), there are currently no migration
statements and the stored version is set to `to`; otherwise nothing runs. -/
def run_migrations_trace (fromV : Nat) (toV : Option Nat) : List ConnAction :=
  let t := toV.getD DATABASE_VERSION
  if fromV < t then [.stmt (.setKv "version" [t])] else []

/-- The result of `run_migrations`: it never fails on the version comparison;
in particular it returns `Ok` when `from` is larger than `to`. -/
def run_migrations_result (fromV : Nat) (toV : Option Nat) :
    Except StoreError Unit :=
  let t := toV.getD DATABASE_VERSION
  if fromV < t then .ok () else .ok ()

/-- Modelled from the spec: `get_or_create_store_cipher` (not part of the
sources here) derives cipher material from the passphrase. -/
def get_or_create_store_cipher (passphrase : String) : StoreCipher :=
  ⟨(passphrase.toList.map Char.toNat).foldl (fun a c => a * 256 + c) 1⟩

/-- `open_with_pool`, as a result value: read the stored version, run `init`
when it is 0, derive the cipher from the passphrase when given, run the
migrations, and return the store. -/
def open_with_pool (storedVersion : Nat) (passphrase : Option String) :
    Except StoreError SqliteEventCacheStore :=
  let version := if storedVersion = 0 then 1 else storedVersion
  let store_cipher := passphrase.map get_or_create_store_cipher
  let this : SqliteEventCacheStore := ⟨store_cipher⟩
  match run_migrations_result version none with
  | .ok _ => .ok this
  | .error e => .error e

/-- `open_with_pool`, as a trace: load the stored version (a read), run
`init` when it is 0, set up the cipher material when a passphrase is given,
then run the migrations. -/
def openTrace (storedVersion : Nat) (passphrase : Bool) : List ConnAction :=
  [ConnAction.stmt (.readKv "version")]
    ++ (if storedVersion = 0 then initTrace else [])
    ++ (if passphrase then [ConnAction.stmt .cipherSetup] else [])
    ++ run_migrations_trace (if storedVersion = 0 then 1 else storedVersion) none

/-- Is this operation a write of the stored schema version? -/
def isVersionWrite : SqlOp → Bool
  | .setKv k _ => decide (k = "version")
  | _ => false

/-- Is this operation schema-altering? -/
def isSchemaAltering : SqlOp → Bool
  | .schemaInit => true
  | _ => false

/-- Is this action an explicit transaction? -/
def isTransactionAct : ConnAction → Bool
  | .transaction _ => true
  | .stmt _ => false

/-- Every write of the stored schema version in the trace happens inside a
transaction that also contains schema-altering statements. -/
def versionWritesInsideSchemaTxn (t : List ConnAction) : Bool :=
  t.all fun a =>
    match a with
    | .stmt op => !(isVersionWrite op)
    | .transaction ops => !(ops.any isVersionWrite) || ops.any isSchemaAltering

/-- The WAL pragma occurs among the actions preceding the first transaction
of the trace. -/
def pragmaBeforeFirstTxn (t : List ConnAction) : Bool :=
  (t.takeWhile fun a => !(isTransactionAct a)).contains (.stmt .pragmaWal)

/-- No transaction of the trace contains the WAL pragma. -/
def pragmaNeverInTxn (t : List ConnAction) : Bool :=
  t.all fun a =>
    match a with
    | .transaction ops => !(ops.contains .pragmaWal)
    | .stmt _ => true

/-- The trace contains the initial schema creation as one transaction, and
the write of version 1 occurs strictly after it. -/
def schemaTxnThenVersionOne (t : List ConnAction) : Bool :=
  t.contains (.transaction [.schemaInit])
    && ((t.dropWhile fun a => !(decide (a = ConnAction.transaction [.schemaInit]))).drop 1).contains
        (.stmt (.setKv "version" [1]))

/-- The durable facts the open-path statements establish: whether the schema
batch has been applied, and the stored version number. -/
structure DbSchemaState where
  schemaApplied : Bool
  version : Nat
deriving DecidableEq

/-- Apply one SQL operation to the durable state. -/
def applyOp (s : DbSchemaState) : SqlOp → DbSchemaState
  | .schemaInit => { s with schemaApplied := true }
  | .setKv k v => if k = "version" then { s with version := v.headD 0 } else s
  | _ => s

/-- Apply one action: a transaction applies atomically (all of its
operations), a statement applies on its own. -/
def applyAction (s : DbSchemaState) : ConnAction → DbSchemaState
  | .stmt op => applyOp s op
  | .transaction ops => ops.foldl applyOp s

/-- Apply a trace of actions in order. -/
def applyActions (s : DbSchemaState) (t : List ConnAction) : DbSchemaState :=
  t.foldl applyAction s

/-- The schema version the durably applied schema changes amount to. -/
def versionOfSchema (s : DbSchemaState) : Nat :=
  if s.schemaApplied then 1 else 0

/-- Equality of results is decidable, so concrete runs can be checked by
evaluation. -/
instance {ε α : Type} [DecidableEq ε] [DecidableEq α] : DecidableEq (Except ε α) := fun a b =>
  match a, b with
  | .ok x, .ok y =>
      if h : x = y then .isTrue (by rw [h])
      else .isFalse (by intro hc; cases hc; exact h rfl)
  | .error x, .error y =>
      if h : x = y then .isTrue (by rw [h])
      else .isFalse (by intro hc; cases hc; exact h rfl)
  | .ok _, .error _ => .isFalse (by intro hc; cases hc)
  | .error _, .ok _ => .isFalse (by intro hc; cases hc)

/-! ### Helper lemmas -/

/-- `find?` on a list purged of matches and then extended with a matching
element returns that element. -/
theorem find?_filterNot_append {α : Type} (l : List α) (p : α → Bool) (x : α)
    (hx : p x = true) :
    ((l.filter fun a => !(p a)) ++ [x]).find? p = some x := by
  induction l with
  | nil => simp [List.find?, hx]
  | cons a l ih =>
      by_cases h : p a = true
      · simp [List.filter_cons, h, ih]
      · simp only [Bool.not_eq_true] at h
        simp [List.filter_cons, h, List.find?_cons, ih]

/-- Counting matches on a list purged of matches and then extended with a
matching element yields exactly one. -/
theorem countP_filterNot_append {α : Type} (l : List α) (p : α → Bool) (x : α)
    (hx : p x = true) :
    ((l.filter fun a => !(p a)) ++ [x]).countP p = 1 := by
  rw [List.countP_append]
  have h0 : (l.filter fun a => !(p a)).countP p = 0 := by
    rw [List.countP_eq_zero]
    intro a ha
    rcases List.mem_filter.mp ha with ⟨_, hne⟩
    simp only [Bool.not_eq_true'] at hne
    simp [hne]
  simp [h0, List.countP_cons, hx]

/-- `find?` returns `none` on a filtered list when the filter discards every
match. -/
theorem find?_filter_none {α : Type} (l : List α) (p q : α → Bool)
    (h : ∀ a, p a = true → q a = false) :
    (l.filter q).find? p = none := by
  rw [List.find?_eq_none]
  intro a ha
  rcases List.mem_filter.mp ha with ⟨_, hq⟩
  intro hp
  rw [h a hp] at hq
  exact Bool.false_ne_true hq

/-- Touching a row does not change whether it matches a key pair. -/
theorem rowMatches_touchRow (now : Nat) (u f u2 f2 : Key) (r : MediaRow) :
    rowMatches u2 f2 (touchRow now u f r) = rowMatches u2 f2 r := by
  unfold touchRow
  by_cases h : rowMatches u f r = true
  · simp only [h, if_true]
    unfold rowMatches
    rfl
  · simp only [Bool.not_eq_true] at h
    simp [h]

/-- `find?` commutes with the last-access touch of a key pair. -/
theorem find?_map_touchRow (l : List MediaRow) (now : Nat) (u f u2 f2 : Key) :
    (l.map (touchRow now u f)).find? (rowMatches u2 f2)
      = (l.find? (rowMatches u2 f2)).map (touchRow now u f) := by
  induction l with
  | nil => simp
  | cons a l ih =>
      by_cases h : rowMatches u2 f2 a = true
      · simp [List.find?_cons, rowMatches_touchRow, h]
      · simp only [Bool.not_eq_true] at h
        simp [List.find?_cons, rowMatches_touchRow, h, ih]

/-- Touching a matching row sets its last-access time and nothing else. -/
theorem touchRow_of_matches (now : Nat) (u f : Key) (r : MediaRow)
    (h : rowMatches u f r = true) :
    touchRow now u f r = { r with last_access := now } := by
  unfold touchRow
  simp [h]

/-- A freshly built row matches its own key pair. -/
theorem rowMatches_self (u f : Key) (d : Bytes) (t : Nat) :
    rowMatches u f ⟨u, f, d, t⟩ = true := by
  simp [rowMatches]

/-- Decoding inverts encoding, with and without a cipher configured. -/
theorem decode_encode (s : SqliteEventCacheStore) (nonce : Nat) (v : Bytes) :
    s.decode_value (s.encode_value nonce v) = .ok v := by
  cases h : s.store_cipher with
  | none =>
      simp [SqliteEventCacheStore.encode_value, SqliteEventCacheStore.decode_value, h]
  | some c =>
      simp [SqliteEventCacheStore.encode_value, SqliteEventCacheStore.decode_value, h,
        rmp_to_vec, rmp_from_slice, encrypt_value_data, decrypt_value_data,
        Bind.bind, Except.bind]

/-- Key encoding is injective in the key bytes (for the hashed form this is
the collision-freeness of the modelled keyed hash). -/
theorem encode_key_injective (s : SqliteEventCacheStore) (t : String)
    (k1 k2 : Bytes) (h : k1 ≠ k2) :
    s.encode_key t k1 ≠ s.encode_key t k2 := by
  cases hc : s.store_cipher with
  | none =>
      simp [SqliteEventCacheStore.encode_key, hc]
      exact h
  | some c =>
      simp [SqliteEventCacheStore.encode_key, hc, hash_key]
      exact h

/-- `find?` on a list whose elements all fail the predicate, extended with a
matching element, returns that element. -/
theorem find?_append_singleton {α : Type} (l : List α) (p : α → Bool) (x : α)
    (hl : ∀ a ∈ l, p a = false) (hx : p x = true) :
    (l ++ [x]).find? p = some x := by
  induction l with
  | nil => simp [List.find?, hx]
  | cons a l ih =>
      have ha := hl a (List.mem_cons_self a l)
      simp only [List.cons_append, List.find?_cons, ha]
      exact ih fun b hb => hl b (List.mem_cons_of_mem a hb)

/-- A put followed by a get of the same key pair selects the value just
stored and touches its row. -/
theorem get_media_set_media (db : MediaTable) (now now2 : Nat) (u f : Key)
    (d : Bytes) :
    get_media (set_media db now u f d) now2 u f
      = (some d, ⟨(set_media db now u f d).rows.map (touchRow now2 u f)⟩) := by
  simp only [get_media, set_media]
  rw [find?_filterNot_append db.rows (rowMatches u f) ⟨u, f, d, now⟩
    (rowMatches_self u f d now)]

/-- Round-trip at the store level: a get right after a put of the same media
request returns the stored plaintext. -/
theorem get_after_put (s : SqliteEventCacheStore) (db : MediaTable)
    (now nonce now2 : Nat) (request : MediaRequest) (b : Bytes) :
    (get_media_content s (add_media_content s db now nonce request b) now2 request).1
      = .ok (some b) := by
  simp only [get_media_content, add_media_content]
  rw [get_media_set_media]
  simp [decode_encode, Except.map]

/-! ### Claims -/

/-- Claim C1: for every byte sequence `b` and key pair, a get of that key
pair right after a put of `b` under it returns `some b`, both when the store
holds a cipher derived from a passphrase and when it holds none. -/
theorem media_put_get_round_trip (passphrase : Option String) (db : MediaTable)
    (now nonce now2 : Nat) (request : MediaRequest) (b : Bytes) :
    (get_media_content ⟨passphrase.map get_or_create_store_cipher⟩
        (add_media_content ⟨passphrase.map get_or_create_store_cipher⟩ db now nonce request b)
        now2 request).1
      = .ok (some b) :=
  get_after_put ⟨passphrase.map get_or_create_store_cipher⟩ db now nonce now2 request b

/-- Claim C9: with no cipher configured, key encoding returns the plain input
bytes and value encoding and decoding are the identity. -/
theorem no_cipher_encodings_identity (t : String) (k v : Bytes) (nonce : Nat) :
    SqliteEventCacheStore.encode_key ⟨none⟩ t k = Key.Plain k
    ∧ SqliteEventCacheStore.encode_value ⟨none⟩ nonce v = v
    ∧ SqliteEventCacheStore.decode_value ⟨none⟩ v = .ok v :=
  ⟨rfl, rfl, rfl⟩

/-- Claim C5: putting `b1` then `b2` under the same key pair leaves exactly
one row for that pair, a subsequent get returns `b2`, and a single put on an
arbitrary prior table likewise leaves exactly one row for the pair (in
particular a put with no prior row succeeds). -/
theorem put_overwrites (s : SqliteEventCacheStore) (db : MediaTable)
    (now1 nonce1 now2 nonce2 now3 : Nat) (request : MediaRequest) (b1 b2 : Bytes) :
    ((add_media_content s (add_media_content s db now1 nonce1 request b1)
        now2 nonce2 request b2).rows.countP
      (rowMatches (s.encode_key media_table_name request.source_key)
        (s.encode_key media_table_name request.format_key)) = 1)
    ∧ (get_media_content s
        (add_media_content s (add_media_content s db now1 nonce1 request b1)
          now2 nonce2 request b2) now3 request).1 = .ok (some b2)
    ∧ ((add_media_content s db now1 nonce1 request b1).rows.countP
        (rowMatches (s.encode_key media_table_name request.source_key)
          (s.encode_key media_table_name request.format_key)) = 1) := by
  refine ⟨?_, get_after_put s _ now2 nonce2 now3 request b2, ?_⟩
  · simp only [add_media_content, set_media]
    exact countP_filterNot_append _ _ _ (rowMatches_self _ _ _ _)
  · simp only [add_media_content, set_media]
    exact countP_filterNot_append _ _ _ (rowMatches_self _ _ _ _)

/-- Claim C4: a get encodes both key parts and, in one transaction, selects
the stored value: when no row matches it returns `none` and modifies nothing;
when a row matches it updates exactly that last-access timestamp to the
current time and returns the decoded value. -/
theorem get_selects_and_touches (s : SqliteEventCacheStore) (db : MediaTable)
    (now : Nat) (request : MediaRequest) :
    (db.rows.find? (rowMatches (s.encode_key media_table_name request.source_key)
        (s.encode_key media_table_name request.format_key)) = none →
      get_media_content s db now request = (.ok none, db))
    ∧ (∀ r, db.rows.find? (rowMatches (s.encode_key media_table_name request.source_key)
        (s.encode_key media_table_name request.format_key)) = some r →
      (get_media_content s db now request).1 = (s.decode_value r.data).map some
      ∧ (get_media_content s db now request).2
          = ⟨db.rows.map (touchRow now (s.encode_key media_table_name request.source_key)
              (s.encode_key media_table_name request.format_key))⟩
      ∧ (get_media_content s db now request).2.rows.find?
          (rowMatches (s.encode_key media_table_name request.source_key)
            (s.encode_key media_table_name request.format_key))
          = some { r with last_access := now }) := by
  constructor
  · intro h
    simp only [get_media_content, get_media, h]
  · intro r h
    have hmatch := List.find?_some h
    refine ⟨?_, ?_, ?_⟩ <;> simp only [get_media_content, get_media, h]
    rw [find?_map_touchRow, h]
    simp [touchRow_of_matches now _ _ r hmatch]

/-- Witness for claim C4: on a concrete store, a get of an absent pair
returns `none` and changes nothing, and a get of a present pair returns its
value. -/
theorem get_selects_and_touches_witness :
    get_media_content ⟨none⟩ ⟨[]⟩ 5 ⟨[1], [2]⟩ = (.ok none, ⟨[]⟩)
    ∧ (get_media_content ⟨none⟩ ⟨[⟨.Plain [1], .Plain [2], [9], 0⟩]⟩ 5 ⟨[1], [2]⟩).1
        = .ok (some [9]) := by
  constructor
  · exact (get_selects_and_touches ⟨none⟩ ⟨[]⟩ 5 ⟨[1], [2]⟩).1 rfl
  · rw [((get_selects_and_touches ⟨none⟩ ⟨[⟨.Plain [1], .Plain [2], [9], 0⟩]⟩ 5
      ⟨[1], [2]⟩).2 ⟨.Plain [1], .Plain [2], [9], 0⟩ (by decide)).1]
    rfl

/-- Claim C7: when the row for a key pair exists but its stored blob fails to
deserialize or decrypt, the get surfaces that error; it never reports the row
as absent. -/
theorem decode_failure_is_error (s : SqliteEventCacheStore) (db : MediaTable)
    (now : Nat) (request : MediaRequest) (r : MediaRow) (e : StoreError)
    (hfind : db.rows.find? (rowMatches (s.encode_key media_table_name request.source_key)
        (s.encode_key media_table_name request.format_key)) = some r)
    (hdec : s.decode_value r.data = .error e) :
    (get_media_content s db now request).1 = .error e
    ∧ (get_media_content s db now request).1 ≠ .ok none := by
  have h1 : (get_media_content s db now request).1 = .error e := by
    simp only [get_media_content, get_media, hfind, hdec]
    rfl
  exact ⟨h1, by rw [h1]; intro hc; cases hc⟩

/-- Witness for claim C7: a row whose blob is too short to deserialize and a
row encrypted under different key material both surface errors. -/
theorem decode_failure_is_error_witness :
    (get_media_content ⟨some ⟨0⟩⟩
        ⟨[⟨.Hashed 0 "media" [1], .Hashed 0 "media" [2], [], 3⟩]⟩ 7 ⟨[1], [2]⟩).1
      = .error .deserialization
    ∧ (get_media_content ⟨some ⟨0⟩⟩
        ⟨[⟨.Hashed 0 "media" [1], .Hashed 0 "media" [2], [1, 0, 9], 3⟩]⟩ 7 ⟨[1], [2]⟩).1
      = .error .decryption :=
  ⟨(decode_failure_is_error ⟨some ⟨0⟩⟩
      ⟨[⟨.Hashed 0 "media" [1], .Hashed 0 "media" [2], [], 3⟩]⟩ 7 ⟨[1], [2]⟩
      ⟨.Hashed 0 "media" [1], .Hashed 0 "media" [2], [], 3⟩ .deserialization
      (by decide) (by decide)).1,
   (decode_failure_is_error ⟨some ⟨0⟩⟩
      ⟨[⟨.Hashed 0 "media" [1], .Hashed 0 "media" [2], [1, 0, 9], 3⟩]⟩ 7 ⟨[1], [2]⟩
      ⟨.Hashed 0 "media" [1], .Hashed 0 "media" [2], [1, 0, 9], 3⟩ .decryption
      (by decide) (by decide)).1⟩

/-- Claim C10: when the row for a key pair exists but its blob fails to
decode, the get still returns an error while the committed transaction has
already updated the last-access time of that row; the row, with its undecodable
blob, remains stored. -/
theorem decode_failure_still_touches (s : SqliteEventCacheStore) (db : MediaTable)
    (now : Nat) (request : MediaRequest) (r : MediaRow) (e : StoreError)
    (hfind : db.rows.find? (rowMatches (s.encode_key media_table_name request.source_key)
        (s.encode_key media_table_name request.format_key)) = some r)
    (hdec : s.decode_value r.data = .error e) :
    (get_media_content s db now request).1 = .error e
    ∧ (get_media_content s db now request).2.rows.find?
        (rowMatches (s.encode_key media_table_name request.source_key)
          (s.encode_key media_table_name request.format_key))
        = some { r with last_access := now } := by
  constructor
  · simp only [get_media_content, get_media, hfind, hdec]
    rfl
  · have hmatch := List.find?_some hfind
    simp only [get_media_content, get_media, hfind]
    rw [find?_map_touchRow, hfind]
    simp [touchRow_of_matches now _ _ r hmatch]

/-- Witness for claim C10: on a concrete store, a get of an undecodable row
errors, yet afterwards the row is still there with its timestamp set to the
time of the get. -/
theorem decode_failure_still_touches_witness :
    (get_media_content ⟨some ⟨4⟩⟩
        ⟨[⟨.Hashed 4 "media" [6], .Hashed 4 "media" [7], [], 3⟩]⟩ 8 ⟨[6], [7]⟩).1
      = .error .deserialization
    ∧ (get_media_content ⟨some ⟨4⟩⟩
        ⟨[⟨.Hashed 4 "media" [6], .Hashed 4 "media" [7], [], 3⟩]⟩ 8 ⟨[6], [7]⟩).2.rows.find?
        (rowMatches (SqliteEventCacheStore.encode_key ⟨some ⟨4⟩⟩ media_table_name [6])
          (SqliteEventCacheStore.encode_key ⟨some ⟨4⟩⟩ media_table_name [7]))
      = some ⟨.Hashed 4 "media" [6], .Hashed 4 "media" [7], [], 8⟩ :=
  decode_failure_still_touches ⟨some ⟨4⟩⟩
    ⟨[⟨.Hashed 4 "media" [6], .Hashed 4 "media" [7], [], 3⟩]⟩ 8 ⟨[6], [7]⟩
    ⟨.Hashed 4 "media" [6], .Hashed 4 "media" [7], [], 3⟩ .deserialization
    (by decide) (by decide)

/-- After deleting every row of a uri key, a get of that uri key (with any
format key) finds nothing and changes nothing. -/
theorem get_media_after_remove_uri (db : MediaTable) (now : Nat) (u f : Key) :
    get_media (remove_uri_medias db u) now u f = (none, remove_uri_medias db u) := by
  simp only [get_media, remove_uri_medias]
  rw [find?_filter_none]
  intro a ha
  simp only [rowMatches, Bool.and_eq_true, decide_eq_true_eq] at ha
  simp [ha.1]

/-- After removing all media of a uri, a get under that uri returns `none`. -/
theorem get_content_after_remove_uri (s : SqliteEventCacheStore) (db : MediaTable)
    (now : Nat) (uk fk : Bytes) :
    (get_media_content s (remove_media_content_for_uri s db uk) now ⟨uk, fk⟩).1
      = .ok none := by
  simp only [get_media_content, remove_media_content_for_uri]
  rw [get_media_after_remove_uri]

/-- `find?` on a purged-then-extended list that afterwards gets filtered by a
predicate the added element satisfies still returns the added element. -/
theorem find?_filter_append_singleton {α : Type} (l : List α) (p q : α → Bool)
    (x : α) (hqx : q x = true) (hpx : p x = true) (hl : ∀ a ∈ l, p a = false) :
    ((l ++ [x]).filter q).find? p = some x := by
  rw [List.filter_append]
  have hx1 : [x].filter q = [x] := by simp [hqx]
  rw [hx1]
  exact find?_append_singleton _ p x (fun a ha => hl a (List.mem_of_mem_filter ha)) hpx

/-- A row put under one uri survives the removal of a different uri and is
still returned by a get. -/
theorem get_survives_remove_other_uri (s : SqliteEventCacheStore) (db : MediaTable)
    (now nonce now2 : Nat) (u1 u2 f2 : Bytes) (z : Bytes) (h : u1 ≠ u2) :
    (get_media_content s
        (remove_media_content_for_uri s (add_media_content s db now nonce ⟨u2, f2⟩ z) u1)
        now2 ⟨u2, f2⟩).1 = .ok (some z) := by
  have henc := encode_key_injective s media_table_name u2 u1 (Ne.symm h)
  simp only [get_media_content, remove_media_content_for_uri, remove_uri_medias,
    add_media_content, set_media, get_media]
  rw [find?_filter_append_singleton _ _ _
    (⟨s.encode_key media_table_name u2, s.encode_key media_table_name f2,
      s.encode_value nonce z, now⟩ : MediaRow)
    (by simp [henc]) (rowMatches_self _ _ _ _) ?_]
  · simp [decode_encode, Except.map]
  · intro a ha
    rcases List.mem_filter.mp ha with ⟨_, hne⟩
    simp only [Bool.not_eq_true'] at hne
    exact hne

/-- The three-put scenario of claim C6: put `x` under (id, fmt1), `y` under
(id, fmt2), and `z` under (id2, fmt1). -/
def scenarioTable (s : SqliteEventCacheStore) (db : MediaTable)
    (n1 e1 n2 e2 n3 e3 : Nat) (id id2 fmt1 fmt2 x y z : Bytes) : MediaTable :=
  add_media_content s
    (add_media_content s (add_media_content s db n1 e1 ⟨id, fmt1⟩ x) n2 e2 ⟨id, fmt2⟩ y)
    n3 e3 ⟨id2, fmt1⟩ z

/-- Claim C6: removing all media of `id` deletes every row whose uri key
matches `id` regardless of format and leaves rows of other uris unchanged:
in the three-put scenario only the `id2` row stays retrievable. -/
theorem remove_all_for_uri_scope (s : SqliteEventCacheStore) (db : MediaTable)
    (n1 e1 n2 e2 n3 e3 n4 n5 n6 : Nat) (id id2 fmt1 fmt2 x y z : Bytes)
    (hid : id ≠ id2) :
    (get_media_content s
        (remove_media_content_for_uri s
          (scenarioTable s db n1 e1 n2 e2 n3 e3 id id2 fmt1 fmt2 x y z) id)
        n4 ⟨id, fmt1⟩).1 = .ok none
    ∧ (get_media_content s
        (remove_media_content_for_uri s
          (scenarioTable s db n1 e1 n2 e2 n3 e3 id id2 fmt1 fmt2 x y z) id)
        n5 ⟨id, fmt2⟩).1 = .ok none
    ∧ (get_media_content s
        (remove_media_content_for_uri s
          (scenarioTable s db n1 e1 n2 e2 n3 e3 id id2 fmt1 fmt2 x y z) id)
        n6 ⟨id2, fmt1⟩).1 = .ok (some z)
    ∧ ∀ r ∈ (scenarioTable s db n1 e1 n2 e2 n3 e3 id id2 fmt1 fmt2 x y z).rows,
        r.uri ≠ s.encode_key media_table_name id →
        r ∈ (remove_media_content_for_uri s
          (scenarioTable s db n1 e1 n2 e2 n3 e3 id id2 fmt1 fmt2 x y z) id).rows := by
  refine ⟨get_content_after_remove_uri s _ n4 id fmt1,
    get_content_after_remove_uri s _ n5 id fmt2, ?_, ?_⟩
  · exact get_survives_remove_other_uri s _ n3 e3 n6 id id2 fmt1 z hid
  · intro r hr hne
    simp only [remove_media_content_for_uri, remove_uri_medias]
    exact List.mem_filter.mpr ⟨hr, by simp [hne]⟩

/-- Witness for claim C6: a concrete three-put scenario where, after the
removal of the first uri, the row of the second uri is still returned. -/
theorem remove_all_for_uri_scope_witness :
    ([0] : Bytes) ≠ [1]
    ∧ (get_media_content ⟨none⟩
        (remove_media_content_for_uri ⟨none⟩
          (scenarioTable ⟨none⟩ ⟨[]⟩ 0 0 1 1 2 2 [0] [1] [2] [3] [4] [5] [6]) [0])
        9 ⟨[1], [2]⟩).1 = .ok (some [6]) :=
  ⟨by decide,
   (remove_all_for_uri_scope ⟨none⟩ ⟨[]⟩ 0 0 1 1 2 2 7 8 9
      [0] [1] [2] [3] [4] [5] [6] (by decide)).2.2.1⟩

/-- Claim C2 counterexample: in the open trace from version 0 — the initial
schema creation step, the one migration step the code has — the stored
version is written by a separate top-level statement, not inside the
transaction holding the schema-altering statements. -/
theorem version_write_outside_schema_txn :
    versionWritesInsideSchemaTxn (openTrace 0 false) = false := by decide

/-- Claim C2 (amended): the version write is a separate statement issued
after the schema transaction, so stopping the version-0 open after any
prefix of its actions (transactions applying atomically) leaves the
persisted version no higher than the version the durably applied schema
changes amount to. -/
theorem version_never_ahead_of_schema (p : Bool) (n : Nat) :
    (applyActions ⟨false, 0⟩ ((openTrace 0 p).take n)).version
      ≤ versionOfSchema (applyActions ⟨false, 0⟩ ((openTrace 0 p).take n)) := by
  have hlen : (openTrace 0 p).length ≤ 5 := by cases p <;> decide
  match n with
  | 0 => cases p <;> decide
  | 1 => cases p <;> decide
  | 2 => cases p <;> decide
  | 3 => cases p <;> decide
  | 4 => cases p <;> decide
  | (m + 5) =>
      rw [List.take_of_length_le (le_trans hlen (by omega))]
      cases p <;> decide

/-- Claim C3 counterexample: opening a store whose persisted version (2) is
strictly greater than `DATABASE_VERSION` (1) succeeds and returns a usable
store instead of failing. -/
theorem future_version_open_returns_store :
    open_with_pool 2 none = .ok ⟨none⟩ := rfl

/-- Claim C3 (amended): when the persisted version exceeds
`DATABASE_VERSION`, the open succeeds — `run_migrations` compares the
versions, runs nothing, and reports success — and the returned store carries
the cipher derived from the passphrase. -/
theorem future_version_open_succeeds (v : Nat) (passphrase : Option String)
    (h : DATABASE_VERSION < v) :
    open_with_pool v passphrase = .ok ⟨passphrase.map get_or_create_store_cipher⟩
    ∧ run_migrations_trace v none = [] := by
  constructor
  · simp [open_with_pool, run_migrations_result]
  · have hv : ¬ v < (none : Option Nat).getD DATABASE_VERSION := by
      simp only [Option.getD_none]
      omega
    simp only [run_migrations_trace, hv, if_false]

/-- Witness for the amended claim C3: version 2 exceeds `DATABASE_VERSION`
and the open nevertheless succeeds, running no migration statements. -/
theorem future_version_open_succeeds_witness :
    DATABASE_VERSION < 2
    ∧ (open_with_pool 2 (some "pass") = .ok ⟨some (get_or_create_store_cipher "pass")⟩
        ∧ run_migrations_trace 2 none = []) :=
  ⟨by decide, future_version_open_succeeds 2 (some "pass") (by decide)⟩

/-- Claim C8: on a version-0 open (with or without a passphrase), the WAL
pragma is executed outside any transaction and before the first transaction
of the trace, and the initial schema creation runs as one transaction that
precedes the persisting of version 1. -/
theorem wal_first_outside_transactions (p : Bool) :
    pragmaBeforeFirstTxn (openTrace 0 p) = true
    ∧ pragmaNeverInTxn (openTrace 0 p) = true
    ∧ schemaTxnThenVersionOne (openTrace 0 p) = true := by
  cases p <;> exact ⟨rfl, rfl, rfl⟩

end EventCache
